import Mathlib

/-!
Verification of the HTTP-facing layer of the gitmanager grading service
(`access/views.py` and `scripts/build_template.py`).

Python dictionaries are embedded as insertion-ordered association lists
`List (String × α)`; the operations below mirror CPython semantics:
`d[k]` is `alookup` (first match), `d[k] = v` is `setKey` (replace the
existing entry in place, else append), `d.update(e)` is `dictUpdate`
(a `setKey` per entry of `e`, in order), `del d[k]` is `eraseKey`.
A genuine Python dict never holds two entries with the same key, so
theorems that depend on it assume `(keys d).Nodup`.

JSON-like values (the contents of the configuration dictionaries) are the
inductive `JVal`.  `copy.deepcopy` on such immutable value trees is the
identity, so the pure embedding drops it; object identity (shallow versus
deep copying) is studied separately with the address-carrying model `PObj`
further below.
-/

namespace GitManager

/-- A JSON-like Python value, as stored in the course configuration. -/
inductive JVal where
  | null : JVal
  | bool : Bool → JVal
  | num : Int → JVal
  | str : String → JVal
  | list : List JVal → JVal
  | dict : List (String × JVal) → JVal

/-- A Python dictionary with string keys and JSON-like values. -/
abbrev JDict := List (String × JVal)

/-- A dictionary of type dictionaries (the `module_types` / `exercise_types`
collections handed to `_type_dict`). -/
abbrev TDict := List (String × JDict)

/-- `d[k]` on a Python dict: the value at the first entry with key `k`. -/
def alookup {α : Type} : List (String × α) → String → Option α
  | [], _ => none
  | (k, v) :: rest, key => if k = key then some v else alookup rest key

/-- `k in d` on a Python dict. -/
def hasKey {α : Type} (d : List (String × α)) (k : String) : Bool :=
  (alookup d k).isSome

/-- `d[k] = v` on a Python dict: replace the entry for `k` in place if
present, append it otherwise. -/
def setKey {α : Type} : List (String × α) → String → α → List (String × α)
  | [], key, v => [(key, v)]
  | (k, w) :: rest, key, v =>
      if k = key then (key, v) :: rest else (k, w) :: setKey rest key v

/-- `base.update(d)` on Python dicts: one `setKey` per entry of `d`. -/
def dictUpdate {α : Type} (base d : List (String × α)) : List (String × α) :=
  d.foldl (fun b kv => setKey b kv.1 kv.2) base

/-- `del d[k]` on a Python dict (a no-op when `k` is absent, matching the
`if k in d: del d[k]` idiom in the source). -/
def eraseKey {α : Type} (d : List (String × α)) (k : String) : List (String × α) :=
  d.filter (fun kv => kv.1 ≠ k)

/-- The keys of a dictionary, in order. -/
def keys {α : Type} (d : List (String × α)) : List String :=
  d.map Prod.fst

/-- The test `"type" in dict_item and dict_item["type"] in dict_types` of
`_type_dict`, packaged with the type dictionary it selects: `some td` when
`dict_item` has a `"type"` key whose value is (the string naming) a key of
`dict_types`, `none` otherwise.  A non-string `"type"` value never equals a
string key of `dict_types`, so it selects nothing. -/
def inheritsFrom (dict_item : JDict) (dict_types : TDict) : Option JDict :=
  match alookup dict_item "type" with
  | some (JVal.str s) => alookup dict_types s
  | _ => none

/-- The `base` computed by `_type_dict` (`access/views.py`): the type
dictionary named by `dict_item["type"]` when that value is a key of
`dict_types`, else the fresh empty dict.
`copy.deepcopy` is the identity on the pure value embedding. -/
def typeBase (dict_item : JDict) (dict_types : TDict) : JDict :=
  match inheritsFrom dict_item dict_types with
  | some td => td
  | none => []

/-- `_type_dict(dict_item, dict_types)` from `access/views.py`:
`base = deepcopy(dict_types[dict_item["type"]])` when applicable (else `{}`),
then `base.update(dict_item)`, then `del base["type"]` if present
(`eraseKey` is the identity when `"type"` is absent). -/
def _type_dict (dict_item : JDict) (dict_types : TDict) : JDict :=
  eraseKey (dictUpdate (typeBase dict_item dict_types) dict_item) "type"

/-- The inner loop of `_filter_fields` over the names still to pick, with
`new_entry` as accumulator: `new_entry[name] = entry[name]` per name.
`entry[name]` raises `KeyError` when `name` is absent, aborting the loop,
so the embedding returns `none` in that case ("the lookup-error branch"). -/
def pickEntry (entry : JDict) : List String → JDict → Option JDict
  | [], new_entry => some new_entry
  | name :: rest, new_entry =>
      match alookup entry name with
      | some v => pickEntry entry rest (setKey new_entry name v)
      | none => none

/-- `_filter_fields(dict_list, pick_fields)` from `access/views.py`: one
picked `new_entry` (starting from `{}`) per input entry, in order; a
`KeyError` anywhere aborts the whole call. -/
def _filter_fields (dict_list : List JDict) (pick_fields : List String) :
    Option (List JDict) :=
  match dict_list with
  | [] => some []
  | entry :: rest =>
      match pickEntry entry pick_fields [], _filter_fields rest pick_fields with
      | some new_entry, some result => some (new_entry :: result)
      | _, _ => none

/-- The loop of `_copy_fields` over the names still to pick, with `result`
as accumulator: present fields are copied, absent ones skipped (never an
error); `copy.deepcopy` is the identity on the pure value embedding. -/
def copyFieldsLoop (dict_item : JDict) : List String → JDict → JDict
  | [], result => result
  | name :: rest, result =>
      match alookup dict_item name with
      | some v => copyFieldsLoop dict_item rest (setKey result name v)
      | none => copyFieldsLoop dict_item rest result

/-- `_copy_fields(dict_item, pick_fields)` from `access/views.py`. -/
def _copy_fields (dict_item : JDict) (pick_fields : List String) : JDict :=
  copyFieldsLoop dict_item pick_fields []

/-! ### An address-carrying model for copy semantics

The pure `JVal` embedding cannot distinguish an object from its copy.  To
settle what `copy.deepcopy` does in `_type_dict` and `_copy_fields`, the
same code is embedded once more over `PObj`, where every mutable object (a
dictionary) carries an address.  Two values are "the very same object"
exactly when they are equal including addresses.  `copy.deepcopy` allocates
fresh objects: it is modelled by re-labelling every node with addresses
drawn from an allocation counter, which every caller threads; all
previously existing objects have addresses below the counter. -/

/-- A Python value with object identity: `leaf` is an immutable primitive,
`node a l` a dictionary object at address `a`. -/
inductive PObj where
  | leaf : String → PObj
  | node : Nat → List (String × PObj) → PObj

/-- A Python dictionary over address-carrying values. -/
abbrev PDict := List (String × PObj)

mutual

/-- `copy.deepcopy` on an address-carrying value: fresh addresses from the
counter `c` for every node, contents preserved. -/
def deepcopyP : PObj → Nat → PObj × Nat
  | PObj.leaf s, c => (PObj.leaf s, c)
  | PObj.node _ l, c =>
      let r := deepcopyL l (c + 1)
      (PObj.node c r.1, r.2)

/-- `copy.deepcopy` of the entries of a dictionary, threading the counter. -/
def deepcopyL : List (String × PObj) → Nat → List (String × PObj) × Nat
  | [], c => ([], c)
  | (k, v) :: rest, c =>
      let r := deepcopyP v c
      let r' := deepcopyL rest r.2
      ((k, r.1) :: r'.1, r'.2)

end

mutual

/-- Every node address occurring in a value. -/
def addrs : PObj → List Nat
  | PObj.leaf _ => []
  | PObj.node a l => a :: addrsOfList l

/-- Every node address occurring in the values of a dictionary. -/
def addrsOfList : List (String × PObj) → List Nat
  | [] => []
  | (_, v) :: rest => addrs v ++ addrsOfList rest

end

mutual

/-- A value with all addresses forgotten (addresses rewritten to `0`): the
contents of an object, ignoring its identity. -/
def strip : PObj → PObj
  | PObj.leaf s => PObj.leaf s
  | PObj.node _ l => PObj.node 0 (stripL l)

/-- The entries of a dictionary with all addresses forgotten. -/
def stripL : List (String × PObj) → List (String × PObj)
  | [] => []
  | (k, v) :: rest => (k, strip v) :: stripL rest

end

/-- The type-dictionary selection of `_type_dict`, over address-carrying
values (the `"type"` value must be a string object naming a key of
`dict_types`). -/
def inheritsFromP (dict_item : PDict) (dict_types : List (String × PDict)) :
    Option PDict :=
  match alookup dict_item "type" with
  | some (PObj.leaf s) => alookup dict_types s
  | _ => none

/-- `base = copy.deepcopy(dict_types[dict_item["type"]])` (or the fresh
empty dict) of `_type_dict`, over address-carrying values, threading the
allocation counter `c`. -/
def typeBaseAddr (dict_item : PDict) (dict_types : List (String × PDict))
    (c : Nat) : PDict × Nat :=
  match inheritsFromP dict_item dict_types with
  | some td => deepcopyL td c
  | none => ([], c)

/-- `_type_dict` over address-carrying values: deep copy of the selected
type dictionary, then `base.update(dict_item)` (which stores `dict_item`'s
value objects themselves — no copy), then `del base["type"]`. -/
def _type_dict_addr (dict_item : PDict) (dict_types : List (String × PDict))
    (c : Nat) : PDict :=
  eraseKey (dictUpdate (typeBaseAddr dict_item dict_types c).1 dict_item) "type"

/-- The loop of `_copy_fields` over address-carrying values, with the
`result` dictionary and the allocation counter as accumulator:
`result[name] = copy.deepcopy(dict_item[name])` for each present picked
field, absent ones skipped. -/
def copyFieldsLoopAddr (dict_item : PDict) :
    List String → PDict × Nat → PDict × Nat
  | [], acc => acc
  | name :: rest, acc =>
      match alookup dict_item name with
      | some v =>
          let r := deepcopyP v acc.2
          copyFieldsLoopAddr dict_item rest (setKey acc.1 name r.1, r.2)
      | none => copyFieldsLoopAddr dict_item rest acc

/-- `_copy_fields` over address-carrying values, threading the allocation
counter `c`. -/
def _copy_fields_addr (dict_item : PDict) (pick_fields : List String)
    (c : Nat) : PDict × Nat :=
  copyFieldsLoopAddr dict_item pick_fields ([], c)

/-! ### Requests, responses and the views' collaborators

The views of `access/views.py` are embedded as functions from the request
data they consult and their out-of-scope collaborators (the excluded
`ConfigParser`, Django's URL reversing, template rendering and dynamic
import) to `Except VErr Response`: `Except.error` models an exception
escaping the view (`Http404`, the explicit `ConfigError`, or an ordinary
Python error such as `KeyError`/`TypeError`/`AttributeError` on malformed
configuration data). -/

/-- The request data these views consult: the `post_url` and `lang` GET
parameters, `request.is_ajax()`, and `request.build_absolute_uri`. -/
structure Req where
  post_url : Option String
  lang : Option String
  is_ajax : Bool
  absUri : String → String

/-- A response: a JSON payload (`JsonResponse`), a raw body
(`HttpResponse`), or a rendered template with its context (`render`). -/
inductive Response where
  | json : JDict → Response
  | raw : String → Response
  | template : String → JDict → Response

/-- How a view terminates abnormally: `Http404`, the `ConfigError` raised
for an invalid `"view_type"`, or any other uncaught Python exception. -/
inductive VErr where
  | http404 : VErr
  | configError : VErr
  | pyError : VErr

/-- The handler an exercise's `"view_type"` string resolves to: it is
called as `exview(request, course, exercise, post_url)`. -/
def Handler : Type := Req → JDict → JDict → Option String → Response

/-- The out-of-scope collaborators of the views, accessed only through
these narrow calls: the `ConfigParser` methods used (`exercises`,
`course_entry`, `exercise_entry` — a `none` component models Python
`None`), `reverse` for the two named views, the formatted
`STATIC_URL`-based address, and `import_by_path` (`none` models
`ImproperlyConfigured`). -/
structure Env where
  exercises : String → Option JDict × List JDict
  course_entry : String → Option JDict
  exercise_entry : JVal → JVal → Option String → Option JDict × Option JDict
  reverse_exercise : JVal → JVal → String
  reverse_aplus : JVal → String
  static_url : JVal → JVal → String
  import_by_path : JVal → Option Handler

/-- `course(request, course_key)` from `access/views.py`. -/
def course (env : Env) (request : Req) (course_key : String) :
    Except VErr Response :=
  match env.exercises course_key with
  | (none, _) => Except.error VErr.http404
  | (some c, exercises) =>
      if request.is_ajax then
        match alookup c "name" with
        | none => Except.error VErr.pyError
        | some name =>
            match _filter_fields exercises ["key", "title"] with
            | none => Except.error VErr.pyError
            | some filtered =>
                Except.ok (Response.json
                  [("ready", JVal.bool true),
                   ("course_name", name),
                   ("exercises", JVal.list (filtered.map JVal.dict))])
      else
        match alookup c "key" with
        | none => Except.error VErr.pyError
        | some ck =>
            Except.ok (Response.template "access/course.html"
              [("course", JVal.dict c),
               ("exercises", JVal.list (exercises.map JVal.dict)),
               ("plus_config_url",
                 JVal.str (request.absUri (env.reverse_aplus ck)))])

/-- `exercise(request, course_key, exercise_key)` from `access/views.py`.
The `translation.activate(lang)` side effect is dropped; the view's
result does not depend on it. -/
def exercise (env : Env) (request : Req) (course_key exercise_key : String) :
    Except VErr Response :=
  match env.exercise_entry (JVal.str course_key) (JVal.str exercise_key)
      request.lang with
  | (none, _) => Except.error VErr.http404
  | (_, none) => Except.error VErr.http404
  | (some c, some ex) =>
      match alookup ex "view_type" with
      | none => Except.error VErr.pyError
      | some vt =>
          match env.import_by_path vt with
          | none => Except.error VErr.configError
          | some exview => Except.ok (exview request c ex request.post_url)

/-- Interpret the entries of a configuration dictionary as type
dictionaries, as `_type_dict` consumes them: every value must itself be a
dictionary. -/
def asTypesEntries : List (String × JVal) → Option TDict
  | [] => some []
  | (k, JVal.dict v) :: rest =>
      match asTypesEntries rest with
      | some r => some ((k, v) :: r)
      | none => none
  | (_, _) :: _ => none

/-- `course.get("module_types"/"exercise_types", {})` as the dictionary of
type dictionaries `_type_dict` consumes: absent means `{}`; a value that is
not a dictionary of dictionaries would make the merge fail and is modelled
as an error. -/
def asTypes : Option JVal → Option TDict
  | none => some []
  | some (JVal.dict d) => asTypesEntries d
  | some _ => none

/-- The `of = {...}` construction of `children_recursion` for one child
`o` (a dictionary with a `"key"`): the exercise branch (`"config" in o`),
the static branch (`"static_content" in o`), or the empty dict.  A missing
`course["key"]`/`exercise["key"]` or a `None` exercise entry is a Python
error. -/
def buildOf (env : Env) (request : Req) (c : JDict) (o : JDict) :
    Except VErr JDict :=
  if hasKey o "config" then
    match alookup c "key", alookup o "key" with
    | some ckv, some okv =>
        match (env.exercise_entry ckv okv none).2 with
        | none => Except.error VErr.pyError
        | some ex =>
            match alookup ex "key" with
            | none => Except.error VErr.pyError
            | some ekv =>
                Except.ok
                  [("title", (alookup ex "title").getD (JVal.str "")),
                   ("description",
                     (alookup ex "description").getD (JVal.str "")),
                   ("url",
                     JVal.str (request.absUri (env.reverse_exercise ckv ekv)))]
    | _, _ => Except.error VErr.pyError
  else if hasKey o "static_content" then
    match alookup c "key", alookup o "static_content" with
    | some ckv, some sc =>
        Except.ok [("url", JVal.str (request.absUri (env.static_url ckv sc)))]
    | _, _ => Except.error VErr.pyError
  else
    Except.ok []

/-- Auxiliary size bound used to justify the termination of the children
recursion: a value looked up in a dictionary is smaller than the
dictionary. -/
theorem sizeOf_alookup {d : List (String × JVal)} {k : String} {v : JVal}
    (h : alookup d k = some v) : sizeOf v < sizeOf d := by
  induction d with
  | nil => simp [alookup] at h
  | cons kv rest ih =>
      obtain ⟨k0, w⟩ := kv
      by_cases h0 : k0 = k
      · simp [alookup, h0] at h
        subst h
        simp only [List.cons.sizeOf_spec, Prod.mk.sizeOf_spec]
        omega
      · simp [alookup, h0] at h
        have := ih h
        simp only [List.cons.sizeOf_spec]
        omega

mutual

/-- `children_recursion(parent)` from `aplus_json` in `access/views.py`:
no `"children"` key means no children; otherwise the elements of
`parent["children"]` are traversed (a non-list value, or an element that is
not a dictionary, is a Python error). -/
def children_recursion (env : Env) (request : Req) (c : JDict) (et : TDict)
    (parent : JDict) : Except VErr (List JVal) :=
  match hlook : alookup parent "children" with
  | none => Except.ok []
  | some (JVal.list cs) => childrenList env request c et cs
  | some _ => Except.error VErr.pyError
termination_by sizeOf parent
decreasing_by
  have h1 := sizeOf_alookup hlook
  simp only [JVal.list.sizeOf_spec] at h1
  omega

/-- The loop of `children_recursion` over
`[o for o in parent["children"] if "key" in o]`: per kept child, build
`of`, `of.update(o)`, recurse into `o` for `of["children"]`, then append
`_type_dict(of, exercise_types)`. -/
def childrenList (env : Env) (request : Req) (c : JDict) (et : TDict) :
    List JVal → Except VErr (List JVal)
  | [] => Except.ok []
  | JVal.dict od :: rest =>
      if hasKey od "key" then
        match buildOf env request c od with
        | Except.error e => Except.error e
        | Except.ok of0 =>
            match children_recursion env request c et od with
            | Except.error e => Except.error e
            | Except.ok kids =>
                match childrenList env request c et rest with
                | Except.error e => Except.error e
                | Except.ok result =>
                    Except.ok (JVal.dict (_type_dict
                      (setKey (dictUpdate of0 od) "children" (JVal.list kids))
                      et) :: result)
      else childrenList env request c et rest
  | _ :: _ => Except.error VErr.pyError
termination_by cs => sizeOf cs
decreasing_by
  all_goals simp only [List.cons.sizeOf_spec, JVal.dict.sizeOf_spec]
  all_goals omega

end

/-- The `for m in course["modules"]` loop of `aplus_json`: per module,
`mf = _type_dict(m, module_types)`, `mf["children"] =
children_recursion(m)`, append `mf` (a non-dictionary module is a Python
error). -/
def processModules (env : Env) (request : Req) (c : JDict) (mt et : TDict) :
    List JVal → Except VErr (List JVal)
  | [] => Except.ok []
  | JVal.dict md :: rest =>
      match children_recursion env request c et md with
      | Except.error e => Except.error e
      | Except.ok kids =>
          match processModules env request c mt et rest with
          | Except.error e => Except.error e
          | Except.ok modules =>
              Except.ok (JVal.dict
                (setKey (_type_dict md mt) "children" (JVal.list kids))
                :: modules)
  | _ :: _ => Except.error VErr.pyError

/-- The fields `aplus_json` copies from the course entry into the response. -/
def aplusFields : List String :=
  ["name", "description", "lang", "contact", "assistants", "start", "end",
   "categories", "numerate_ignoring_modules"]

/-- `aplus_json(request, course_key)` from `access/views.py`: `Http404`
when the course entry is missing; otherwise `_copy_fields` of the course
entry, plus a `"modules"` list built by `_type_dict`/`children_recursion`
(empty when the course has no `"modules"` field), delivered as JSON. -/
def aplus_json (env : Env) (request : Req) (course_key : String) :
    Except VErr Response :=
  match env.course_entry course_key with
  | none => Except.error VErr.http404
  | some c =>
      let data := _copy_fields c aplusFields
      match alookup c "modules" with
      | none => Except.ok (Response.json (setKey data "modules" (JVal.list [])))
      | some (JVal.list ms) =>
          match asTypes (alookup c "module_types"),
              asTypes (alookup c "exercise_types") with
          | some mt, some et =>
              match processModules env request c mt et ms with
              | Except.error e => Except.error e
              | Except.ok modules =>
                  Except.ok (Response.json
                    (setKey data "modules" (JVal.list modules)))
          | _, _ => Except.error VErr.pyError
      | some _ => Except.error VErr.pyError

/-- The `"type"`-freeness invariant of emitted entries: the entry (a
dictionary) has no `"type"` key, and the entries of its `"children"` list
satisfy the same invariant. -/
inductive NoTypeDeeply : JVal → Prop where
  | dict : ∀ d : JDict, alookup d "type" = none →
      (∀ kids, alookup d "children" = some (JVal.list kids) →
        ∀ v ∈ kids, NoTypeDeeply v) →
      NoTypeDeeply (JVal.dict d)

/-! ### `test_result` and the build hook -/

/-- The request data `test_result` consults: the method, the POST form
fields (`request.POST`, string-valued), and `str(timezone.now())`. -/
structure TRReq where
  isPost : Bool
  postData : List (String × String)
  now : String

/-- `os.path.join(a, b)` for one extra component: `b` when absolute, else
`a` and `b` separated by exactly one `/`. -/
def joinPath (a b : String) : String :=
  if b.data.head? = some '/' then b
  else if a = "" then b
  else if a.data.getLast? = some '/' then a ++ b
  else a ++ "/" ++ b

/-- `test_result(request)` from `access/views.py`, over the Django setting
`SUBMISSION_PATH` (`submission_path`), the standard-library serialiser
`json.dumps` (`dumps`, an opaque collaborator) and the filesystem (content
by path).  A POST stores the posted fields plus a `"time"` field at
`SUBMISSION_PATH/test-result` and answers `{"success": true}`; any other
method answers the stored content, or the fallback text when the file is
missing or its content falsy (empty). -/
def test_result (submission_path : String)
    (dumps : List (String × String) → String)
    (fs : String → Option String) (request : TRReq) :
    (String → Option String) × Response :=
  let file_path := joinPath submission_path "test-result"
  if request.isPost then
    let vals := setKey request.postData "time" request.now
    (fun p => if p = file_path then some (dumps vals) else fs p,
     Response.json [("success", JVal.bool true)])
  else
    (fs,
     Response.raw
       (match fs file_path with
        | some content =>
            if content = "" then "No test result received yet." else content
        | none => "No test result received yet."))

/-- `logging.Logger`, an out-of-scope collaborator: an abstract token. -/
structure Logger where
  id : Nat

/-- `pathlib.Path`: a filesystem path. -/
structure BuildPath where
  path : String

/-- The signature of `build` in `scripts/build_template.py`, read off the
source annotations: `(logger: logging.Logger, course_key: str, path: Path,
image: str, env: Dict[str, str], settings: Any) -> bool`, `settings` being
the `BUILD_MODULE_SETTINGS` value (an arbitrary configuration value); the
template additionally tolerates extra keyword arguments (`**kwargs`),
which have no counterpart here. -/
def BuildHook : Type :=
  Logger → String → BuildPath → String → List (String × String) → JVal → Bool

/-- Modelled from the spec: the build-hook signature as the specification
words it — "it takes a logger, a course key, the path of the directory the
course is rooted at, an image name, an environment dictionary, and the
BUILD_MODULE_SETTINGS value, and returns a boolean stating whether the
build of that directory succeeded". -/
def BuildHookSpec : Type :=
  Logger → String → BuildPath → String → List (String × String) → JVal → Bool

/-! ### Basic lemmas about the dictionary operations -/

theorem alookup_setKey_self {α : Type} (d : List (String × α)) (k : String) (v : α) :
    alookup (setKey d k v) k = some v := by
  induction d with
  | nil => simp [setKey, alookup]
  | cons kv rest ih =>
      obtain ⟨k', w⟩ := kv
      by_cases h : k' = k <;> simp [setKey, alookup, h, ih]

theorem alookup_setKey_ne {α : Type} (d : List (String × α)) (k k' : String) (v : α)
    (h : k ≠ k') : alookup (setKey d k v) k' = alookup d k' := by
  induction d with
  | nil => simp [setKey, alookup, h]
  | cons kv rest ih =>
      obtain ⟨k0, w⟩ := kv
      by_cases h0 : k0 = k
      · subst h0; simp [setKey, alookup, h, Ne.symm h, ih]
      · by_cases h1 : k0 = k' <;> simp [setKey, alookup, h0, h1, Ne.symm h, ih]

theorem alookup_eraseKey_self {α : Type} (d : List (String × α)) (k : String) :
    alookup (eraseKey d k) k = none := by
  induction d with
  | nil => simp [eraseKey, alookup]
  | cons kv rest ih =>
      obtain ⟨k0, w⟩ := kv
      by_cases h0 : k0 = k
      · simpa [eraseKey, h0] using ih
      · simpa [eraseKey, h0, alookup] using ih

theorem alookup_eraseKey_ne {α : Type} (d : List (String × α)) (k k' : String)
    (h : k' ≠ k) : alookup (eraseKey d k) k' = alookup d k' := by
  induction d with
  | nil => simp [eraseKey, alookup]
  | cons kv rest ih =>
      obtain ⟨k0, w⟩ := kv
      by_cases h0 : k0 = k
      · have hk0 : k0 ≠ k' := by rw [h0]; exact Ne.symm h
        rw [show eraseKey ((k0, w) :: rest) k = eraseKey rest k by
          simp [eraseKey, h0]]
        simpa [alookup, hk0] using ih
      · rw [show eraseKey ((k0, w) :: rest) k = (k0, w) :: eraseKey rest k by
          simp [eraseKey, h0]]
        by_cases h1 : k0 = k'
        · simp [alookup, h1]
        · simp [alookup, h1, ih]

theorem keys_cons {α : Type} (k0 : String) (v0 : α) (rest : List (String × α)) :
    keys ((k0, v0) :: rest) = k0 :: keys rest := rfl

theorem mem_keys_iff_hasKey {α : Type} (d : List (String × α)) (k : String) :
    k ∈ keys d ↔ hasKey d k = true := by
  induction d with
  | nil => simp [keys, hasKey, alookup]
  | cons kv rest ih =>
      obtain ⟨k0, w⟩ := kv
      rw [keys_cons, List.mem_cons]
      by_cases h0 : k0 = k
      · subst h0; simp [hasKey, alookup]
      · constructor
        · rintro (rfl | h)
          · exact absurd rfl h0
          · simpa [hasKey, alookup, h0] using ih.mp h
        · intro h
          exact Or.inr (ih.mpr (by simpa [hasKey, alookup, h0] using h))

theorem not_hasKey_of_not_mem_keys {α : Type} {d : List (String × α)} {k : String}
    (h : k ∉ keys d) : hasKey d k = false := by
  cases hc : hasKey d k with
  | false => rfl
  | true => exact absurd ((mem_keys_iff_hasKey d k).mpr hc) h

theorem hasKey_append {α : Type} (a b : List (String × α)) (k : String) :
    hasKey (a ++ b) k = (hasKey a k || hasKey b k) := by
  induction a with
  | nil => simp [hasKey, alookup]
  | cons kv rest ih =>
      obtain ⟨k0, w⟩ := kv
      by_cases h0 : k0 = k
      · simp [hasKey, alookup, h0]
      · simp [hasKey, alookup, h0]
        simpa [hasKey] using ih

theorem setKey_of_not_hasKey {α : Type} {base : List (String × α)} {k : String}
    (v : α) (h : hasKey base k = false) : setKey base k v = base ++ [(k, v)] := by
  induction base with
  | nil => simp [setKey]
  | cons kv rest ih =>
      obtain ⟨k0, w⟩ := kv
      by_cases h0 : k0 = k
      · exfalso; simp [hasKey, alookup, h0] at h
      · simp [setKey, h0]
        exact ih (by simpa [hasKey, alookup, h0] using h)

/-- `dictUpdate` over a duplicate-free update dictionary: keys of the update
win, all other keys keep the base value. -/
theorem alookup_dictUpdate {α : Type} (d : List (String × α)) :
    ∀ base : List (String × α), (keys d).Nodup → ∀ k,
      alookup (dictUpdate base d) k =
        if hasKey d k then alookup d k else alookup base k := by
  induction d with
  | nil => intro base _ k; simp [dictUpdate, hasKey, alookup]
  | cons kv rest ih =>
      intro base hnd k
      obtain ⟨k0, v0⟩ := kv
      rw [keys_cons] at hnd
      obtain ⟨h0, hnd'⟩ := List.nodup_cons.mp hnd
      have step : dictUpdate base ((k0, v0) :: rest) =
          dictUpdate (setKey base k0 v0) rest := by
        simp [dictUpdate]
      rw [step, ih (setKey base k0 v0) hnd' k]
      by_cases hk : k0 = k
      · subst hk
        have hre : hasKey rest k0 = false := not_hasKey_of_not_mem_keys h0
        have h1 : hasKey ((k0, v0) :: rest) k0 = true := by simp [hasKey, alookup]
        rw [if_neg (by simp [hre]), if_pos h1, alookup_setKey_self]
        simp [alookup]
      · simp [hasKey, alookup, hk, alookup_setKey_ne base k0 k v0 hk]

/-- `dictUpdate` of a duplicate-free dictionary into the empty base is that
dictionary itself (the `base = {}` branch of `_type_dict`). -/
theorem dictUpdate_nil {α : Type} (d : List (String × α)) (hnd : (keys d).Nodup) :
    dictUpdate [] d = d := by
  suffices h : ∀ base : List (String × α), (keys d).Nodup →
      (∀ k, k ∈ keys d → hasKey base k = false) → dictUpdate base d = base ++ d by
    simpa using h [] hnd (by intro k _; simp [hasKey, alookup])
  clear hnd
  induction d with
  | nil => intro base _ _; simp [dictUpdate]
  | cons kv rest ih =>
      intro base hnd hdisj
      obtain ⟨k0, v0⟩ := kv
      rw [keys_cons] at hnd hdisj
      obtain ⟨h0, hnd'⟩ := List.nodup_cons.mp hnd
      have hb0 : hasKey base k0 = false := hdisj k0 (by simp)
      have step : dictUpdate base ((k0, v0) :: rest) =
          dictUpdate (setKey base k0 v0) rest := by
        simp [dictUpdate]
      rw [step, setKey_of_not_hasKey v0 hb0, ih (base ++ [(k0, v0)]) hnd']
      · simp
      · intro k hk
        rw [hasKey_append, hdisj k (List.mem_cons_of_mem _ hk), Bool.false_or]
        have hkne : k0 ≠ k := fun h => h0 (h ▸ hk)
        simp [hasKey, alookup, hkne]

/-! ### `_type_dict`: type inheritance (C1, C8) -/

theorem typeBase_of_inherits {di : JDict} {dt : TDict} {td : JDict}
    (h : inheritsFrom di dt = some td) : typeBase di dt = td := by
  simp [typeBase, h]

theorem typeBase_of_not_inherits {di : JDict} {dt : TDict}
    (h : inheritsFrom di dt = none) : typeBase di dt = [] := by
  simp [typeBase, h]

/-- No entry of a `_type_dict` result has key `"type"` (the trailing
`del base["type"]`). -/
theorem type_dict_no_type (di : JDict) (dt : TDict) :
    ∀ p ∈ _type_dict di dt, p.1 ≠ "type" := by
  intro p hp
  simp only [_type_dict, eraseKey] at hp
  simpa using (List.mem_filter.mp hp).2

/-- **C1, counterexample.**  Claim C1 states that under inheritance the
result maps *every* key of the named type dictionary to the type's value,
with `dict_item`'s value winning on shared keys.  Take
`dict_item = {"type": "a"}` and `dict_types = {"a": {"type": "zz", "k": 1}}`:
`"type"` is a key of the named type dictionary and of `dict_item`, so the
claim requires the result to map `"type"` to `"a"`; the code instead
deletes the `"type"` key, so the result has no `"type"` entry at all. -/
theorem c1_counterexample :
    inheritsFrom [("type", JVal.str "a")]
        [("a", [("type", JVal.str "zz"), ("k", JVal.num 1)])] =
      some [("type", JVal.str "zz"), ("k", JVal.num 1)] ∧
    "type" ∈ keys ([("type", JVal.str "zz"), ("k", JVal.num 1)] : JDict) ∧
    hasKey ([("type", JVal.str "a")] : JDict) "type" = true ∧
    alookup [("type", JVal.str "a")] "type" = some (JVal.str "a") ∧
    ¬ alookup (_type_dict [("type", JVal.str "a")]
        [("a", [("type", JVal.str "zz"), ("k", JVal.num 1)])]) "type" =
      some (JVal.str "a") := by
  refine ⟨rfl, by simp [keys], rfl, rfl, ?_⟩
  have h : _type_dict [("type", JVal.str "a")]
      [("a", [("type", JVal.str "zz"), ("k", JVal.num 1)])] =
      [("k", JVal.num 1)] := rfl
  rw [h]
  simp [alookup]

/-- **C1** (amended).  Type inheritance in `_type_dict`: when `dict_item`
has a `"type"` key whose value is a key of `dict_types`, the result maps
every key of the named type dictionary *other than `"type"`* to that type's
value unless `dict_item` also has that key, in which case `dict_item`'s
value wins; the `"type"` key itself is always deleted from the result
(third conjunct, for every input); when `dict_item` has no `"type"` key, or
its type is not a key of `dict_types`, the result's entries are exactly
`dict_item`'s entries (less any `"type"` key). -/
theorem c1_type_inheritance (di : JDict) (dt : TDict)
    (hnd : (keys di).Nodup) :
    (∀ td, inheritsFrom di dt = some td →
      ∀ k ∈ keys td, k ≠ "type" →
        alookup (_type_dict di dt) k =
          if hasKey di k then alookup di k else alookup td k) ∧
    (inheritsFrom di dt = none → _type_dict di dt = eraseKey di "type") ∧
    alookup (_type_dict di dt) "type" = none := by
  refine ⟨?_, ?_, ?_⟩
  · intro td h k _ hkt
    simp only [_type_dict, typeBase_of_inherits h]
    rw [alookup_eraseKey_ne _ _ _ hkt, alookup_dictUpdate di td hnd k]
  · intro h
    simp only [_type_dict, typeBase_of_not_inherits h, dictUpdate_nil di hnd]
  · simp [_type_dict, alookup_eraseKey_self]

/-- Closed instance of `c1_type_inheritance`: a module dictionary of type
`"a"` inherits the type's `"kind"` entry while its own `"title"` wins, and
no `"type"` entry survives even though both the item and the inherited type
dictionary carry one. -/
theorem c1_type_inheritance_witness :
    alookup (_type_dict [("title", JVal.str "t"), ("type", JVal.str "a")]
        [("a", [("kind", JVal.str "m"), ("title", JVal.str "base"),
          ("type", JVal.str "zz")])])
      "kind" = some (JVal.str "m") ∧
    alookup (_type_dict [("title", JVal.str "t"), ("type", JVal.str "a")]
        [("a", [("kind", JVal.str "m"), ("title", JVal.str "base"),
          ("type", JVal.str "zz")])])
      "title" = some (JVal.str "t") ∧
    alookup (_type_dict [("title", JVal.str "t"), ("type", JVal.str "a")]
        [("a", [("kind", JVal.str "m"), ("title", JVal.str "base"),
          ("type", JVal.str "zz")])])
      "type" = none := by
  have h := c1_type_inheritance
    [("title", JVal.str "t"), ("type", JVal.str "a")]
    [("a", [("kind", JVal.str "m"), ("title", JVal.str "base"),
      ("type", JVal.str "zz")])]
    (by simp [keys])
  refine ⟨?_, ?_, h.2.2⟩
  · have hk := h.1 [("kind", JVal.str "m"), ("title", JVal.str "base"),
      ("type", JVal.str "zz")] rfl "kind" (by simp [keys]) (by simp)
    rw [hk]; rfl
  · have ht := h.1 [("kind", JVal.str "m"), ("title", JVal.str "base"),
      ("type", JVal.str "zz")] rfl "title" (by simp [keys]) (by simp)
    rw [ht]; rfl

/-! ### `_filter_fields` (C10) -/

theorem mem_keys_setKey {α : Type} (d : List (String × α)) (k k' : String) (v : α) :
    k' ∈ keys (setKey d k v) ↔ k' = k ∨ k' ∈ keys d := by
  by_cases h : k' = k
  · simp [h, mem_keys_iff_hasKey, hasKey, alookup_setKey_self]
  · simp [h, mem_keys_iff_hasKey, hasKey,
      alookup_setKey_ne d k k' v (Ne.symm h)]

/-- The inner loop of `_filter_fields` under the all-fields-present
precondition: it succeeds, adds exactly the picked keys, copies their
values from `entry`, and leaves other keys of the accumulator alone. -/
theorem pickEntry_spec (entry : JDict) :
    ∀ (pf : List String) (acc : JDict),
      (∀ nm ∈ pf, hasKey entry nm = true) →
      ∃ ne, pickEntry entry pf acc = some ne ∧
        (∀ nm, nm ∈ keys ne ↔ (nm ∈ keys acc ∨ nm ∈ pf)) ∧
        (∀ nm ∈ pf, alookup ne nm = alookup entry nm) ∧
        (∀ nm, nm ∉ pf → alookup ne nm = alookup acc nm) := by
  intro pf
  induction pf with
  | nil =>
      intro acc _
      exact ⟨acc, rfl, by simp, by simp, fun nm _ => rfl⟩
  | cons name rest ih =>
      intro acc hall
      have hk : hasKey entry name = true := hall name (by simp)
      obtain ⟨v, hv⟩ : ∃ v, alookup entry name = some v := by
        cases hvv : alookup entry name with
        | none => simp [hasKey, hvv] at hk
        | some v => exact ⟨v, rfl⟩
      have hall' : ∀ nm ∈ rest, hasKey entry nm = true :=
        fun nm hnm => hall nm (List.mem_cons_of_mem _ hnm)
      obtain ⟨ne, h1, h2, h3, h4⟩ := ih (setKey acc name v) hall'
      refine ⟨ne, ?_, ?_, ?_, ?_⟩
      · simp [pickEntry, hv, h1]
      · intro nm
        rw [h2 nm, mem_keys_setKey]
        constructor
        · rintro ((rfl | h) | h)
          · exact Or.inr (List.mem_cons_self _ _)
          · exact Or.inl h
          · exact Or.inr (List.mem_cons_of_mem _ h)
        · rintro (h | h)
          · exact Or.inl (Or.inr h)
          · rcases List.mem_cons.mp h with rfl | h
            · exact Or.inl (Or.inl rfl)
            · exact Or.inr h
      · intro nm hnm
        by_cases hr : nm ∈ rest
        · exact h3 nm hr
        · have hne : nm = name := by
            rcases List.mem_cons.mp hnm with h | h
            · exact h
            · exact absurd h hr
          subst hne
          rw [h4 nm hr, alookup_setKey_self, hv]
      · intro nm hnm
        have hr : nm ∉ rest := fun h => hnm (List.mem_cons_of_mem _ h)
        have hne : name ≠ nm := fun h => hnm (h ▸ List.mem_cons_self _ _)
        rw [h4 nm hr, alookup_setKey_ne acc name nm v hne]

/-- The inner loop of `_filter_fields` fails (a `KeyError`) as soon as some
picked field is absent from the entry. -/
theorem pickEntry_fail (entry : JDict) :
    ∀ (pf : List String) (acc : JDict) (nm : String), nm ∈ pf →
      hasKey entry nm = false → pickEntry entry pf acc = none := by
  intro pf
  induction pf with
  | nil => intro acc nm hnm; exact absurd hnm (List.not_mem_nil nm)
  | cons name rest ih =>
      intro acc nm hnm hmiss
      rcases List.mem_cons.mp hnm with rfl | hr
      · have : alookup entry nm = none := by
          cases hvv : alookup entry nm with
          | none => rfl
          | some v => simp [hasKey, hvv] at hmiss
        simp [pickEntry, this]
      · cases hvv : alookup entry name with
        | none => simp [pickEntry, hvv]
        | some v => simp [pickEntry, hvv, ih (setKey acc name v) nm hr hmiss]

/-- **C10.**  Under the precondition that every entry contains every picked
field, `_filter_fields` succeeds with one output entry per input entry, in
order, whose keys are exactly the picked fields, each mapped to the
corresponding input entry's value — the lookup-error branch is unreachable;
without the precondition a missing field makes the call fail (it is not
skipped, unlike in `_copy_fields`). -/
theorem c10_filter_fields :
    (∀ (dict_list : List JDict) (pick_fields : List String),
      (∀ entry ∈ dict_list, ∀ nm ∈ pick_fields, hasKey entry nm = true) →
      ∃ result, _filter_fields dict_list pick_fields = some result ∧
        result.length = dict_list.length ∧
        ∀ i (hi : i < result.length) (hi' : i < dict_list.length),
          (∀ nm, nm ∈ keys (result.get ⟨i, hi⟩) ↔ nm ∈ pick_fields) ∧
          ∀ nm ∈ pick_fields,
            alookup (result.get ⟨i, hi⟩) nm =
              alookup (dict_list.get ⟨i, hi'⟩) nm) ∧
    (∀ (dict_list : List JDict) (pick_fields : List String),
      (∃ entry ∈ dict_list, ∃ nm ∈ pick_fields, hasKey entry nm = false) →
      _filter_fields dict_list pick_fields = none) := by
  constructor
  · intro dict_list pick_fields
    induction dict_list with
    | nil =>
        intro _
        exact ⟨[], rfl, rfl, fun i hi _ => absurd hi (by simp)⟩
    | cons entry rest ih =>
        intro hall
        obtain ⟨ne, h1, h2, h3, _⟩ := pickEntry_spec entry pick_fields []
          (hall entry (by simp))
        obtain ⟨res, hres, hlen, hidx⟩ :=
          ih (fun e he nm hnm => hall e (List.mem_cons_of_mem _ he) nm hnm)
        refine ⟨ne :: res, ?_, by simpa using hlen, ?_⟩
        · simp [_filter_fields, h1, hres]
        · intro i hi hi'
          match i with
          | 0 =>
              refine ⟨fun nm => ?_, fun nm hnm => ?_⟩
              · simpa [keys] using h2 nm
              · simpa using h3 nm hnm
          | i + 1 =>
              exact hidx i (by simpa using hi) (by simpa using hi')
  · intro dict_list pick_fields hmiss
    obtain ⟨entry, hentry, nm, hnm, hmiss⟩ := hmiss
    induction dict_list with
    | nil => exact absurd hentry (List.not_mem_nil entry)
    | cons e rest ih =>
        rcases List.mem_cons.mp hentry with rfl | hr
        · simp [_filter_fields, pickEntry_fail entry pick_fields [] nm hnm hmiss]
        · have := ih hr
          cases hpe : pickEntry e pick_fields [] <;>
            simp [_filter_fields, hpe, this]

/-- Closed instance of `c10_filter_fields`: the course-list call shape
succeeds on an entry that carries both picked fields and an extra one. -/
theorem c10_filter_fields_witness :
    (_filter_fields [[("key", JVal.str "k1"), ("name", JVal.str "n1"),
        ("url", JVal.num 7)]] ["key", "name"]).isSome = true := by
  obtain ⟨result, hres, -, -⟩ := c10_filter_fields.1
    [[("key", JVal.str "k1"), ("name", JVal.str "n1"), ("url", JVal.num 7)]]
    ["key", "name"]
    (by
      intro entry he nm hnm
      rcases List.mem_singleton.mp he with rfl
      rcases List.mem_cons.mp hnm with rfl | h
      · rfl
      · rcases List.mem_singleton.mp h with rfl
        rfl)
  rw [hres]
  rfl

/-! ### Copy semantics of the merge (C2) -/

mutual

theorem deepcopyP_counter_le : ∀ (v : PObj) (c : Nat), c ≤ (deepcopyP v c).2
  | PObj.leaf _, c => le_refl c
  | PObj.node _ l, c => by
      have h := deepcopyL_counter_le l (c + 1)
      simpa [deepcopyP] using le_trans (Nat.le_succ c) h

theorem deepcopyL_counter_le :
    ∀ (l : List (String × PObj)) (c : Nat), c ≤ (deepcopyL l c).2
  | [], c => le_refl c
  | (_, v) :: rest, c => by
      have h1 := deepcopyP_counter_le v c
      have h2 := deepcopyL_counter_le rest (deepcopyP v c).2
      simpa [deepcopyL] using le_trans h1 h2

end

mutual

theorem addrs_deepcopyP_ge :
    ∀ (v : PObj) (c a : Nat), a ∈ addrs (deepcopyP v c).1 → c ≤ a
  | PObj.leaf _, c, a => by simp [deepcopyP, addrs]
  | PObj.node _ l, c, a => by
      intro ha
      simp [deepcopyP, addrs] at ha
      rcases ha with rfl | ha
      · exact le_refl _
      · exact le_trans (Nat.le_succ c) (addrsL_deepcopyL_ge l (c + 1) a ha)

theorem addrsL_deepcopyL_ge :
    ∀ (l : List (String × PObj)) (c a : Nat),
      a ∈ addrsOfList (deepcopyL l c).1 → c ≤ a
  | [], c, a => by simp [deepcopyL, addrsOfList]
  | (_, v) :: rest, c, a => by
      intro ha
      simp [deepcopyL, addrsOfList] at ha
      rcases ha with ha | ha
      · exact addrs_deepcopyP_ge v c a ha
      · exact le_trans (deepcopyP_counter_le v c)
          (addrsL_deepcopyL_ge rest (deepcopyP v c).2 a ha)

end

mutual

theorem strip_deepcopyP : ∀ (v : PObj) (c : Nat), strip (deepcopyP v c).1 = strip v
  | PObj.leaf _, _ => rfl
  | PObj.node _ l, c => by
      simp [deepcopyP, strip, stripL_deepcopyL l (c + 1)]

theorem stripL_deepcopyL :
    ∀ (l : List (String × PObj)) (c : Nat), stripL (deepcopyL l c).1 = stripL l
  | [], _ => rfl
  | (_, v) :: rest, c => by
      simp [deepcopyL, stripL, strip_deepcopyP v c,
        stripL_deepcopyL rest (deepcopyP v c).2]

end

theorem alookup_stripL (l : List (String × PObj)) (k : String) :
    alookup (stripL l) k = Option.map strip (alookup l k) := by
  induction l with
  | nil => rfl
  | cons kv rest ih =>
      obtain ⟨k0, v⟩ := kv
      by_cases h : k0 = k <;> simp [stripL, alookup, h, ih]

theorem addrs_eraseKey_sub {a : Nat} (d : PDict) (k : String)
    (h : a ∈ addrsOfList (eraseKey d k)) : a ∈ addrsOfList d := by
  induction d with
  | nil => simp [eraseKey, addrsOfList] at h
  | cons kv rest ih =>
      obtain ⟨k0, v⟩ := kv
      by_cases h0 : k0 = k
      · rw [show eraseKey ((k0, v) :: rest) k = eraseKey rest k by
          simp [eraseKey, h0]] at h
        simp [addrsOfList]
        exact Or.inr (ih h)
      · rw [show eraseKey ((k0, v) :: rest) k = (k0, v) :: eraseKey rest k by
          simp [eraseKey, h0]] at h
        simp [addrsOfList] at h ⊢
        rcases h with h | h
        · exact Or.inl h
        · exact Or.inr (ih h)

theorem addrs_setKey_sub {a : Nat} (d : PDict) (k : String) (v : PObj)
    (h : a ∈ addrsOfList (setKey d k v)) : a ∈ addrs v ∨ a ∈ addrsOfList d := by
  induction d with
  | nil => exact Or.inl (by simpa [setKey, addrsOfList] using h)
  | cons kv rest ih =>
      obtain ⟨k0, w⟩ := kv
      by_cases h0 : k0 = k
      · rw [show setKey ((k0, w) :: rest) k v = (k, v) :: rest by
          simp [setKey, h0]] at h
        simp [addrsOfList] at h ⊢
        tauto
      · rw [show setKey ((k0, w) :: rest) k v = (k0, w) :: setKey rest k v by
          simp [setKey, h0]] at h
        simp [addrsOfList] at h ⊢
        rcases h with h | h
        · tauto
        · rcases ih h with h | h <;> tauto

theorem addrs_dictUpdate_sub {a : Nat} (d : PDict) :
    ∀ base : PDict, a ∈ addrsOfList (dictUpdate base d) →
      a ∈ addrsOfList base ∨ a ∈ addrsOfList d := by
  induction d with
  | nil => intro base h; exact Or.inl (by simpa [dictUpdate] using h)
  | cons kv rest ih =>
      intro base h
      obtain ⟨k0, v⟩ := kv
      rw [show dictUpdate base ((k0, v) :: rest) =
          dictUpdate (setKey base k0 v) rest by simp [dictUpdate]] at h
      rcases ih (setKey base k0 v) h with h | h
      · rcases addrs_setKey_sub base k0 v h with h | h
        · right; simp [addrsOfList]; exact Or.inl h
        · exact Or.inl h
      · right; simp [addrsOfList]; exact Or.inr h

/-- The `_copy_fields` loop over address-carrying values, relative to an
arbitrary accumulator: the counter only grows; every address in the result
comes from the accumulator or is freshly allocated; names outside the
remaining picked fields keep their accumulator value; and every present
picked field ends up bound to a structural copy of `dict_item`'s value. -/
theorem copyFieldsLoopAddr_spec (di : PDict) :
    ∀ (pf : List String) (acc : PDict × Nat),
      acc.2 ≤ (copyFieldsLoopAddr di pf acc).2 ∧
      (∀ a ∈ addrsOfList (copyFieldsLoopAddr di pf acc).1,
        a ∈ addrsOfList acc.1 ∨ acc.2 ≤ a) ∧
      (∀ nm, nm ∉ pf →
        alookup (copyFieldsLoopAddr di pf acc).1 nm = alookup acc.1 nm) ∧
      (∀ nm ∈ pf, ∀ v, alookup di nm = some v →
        Option.map strip (alookup (copyFieldsLoopAddr di pf acc).1 nm) =
          some (strip v)) := by
  intro pf
  induction pf with
  | nil =>
      intro acc
      exact ⟨le_refl _, fun a ha => Or.inl ha, fun nm _ => rfl,
        fun nm hnm => absurd hnm (List.not_mem_nil nm)⟩
  | cons name rest ih =>
      intro acc
      cases hv : alookup di name with
      | none =>
          have hstep : copyFieldsLoopAddr di (name :: rest) acc =
              copyFieldsLoopAddr di rest acc := by
            simp [copyFieldsLoopAddr, hv]
          obtain ⟨ih1, ih2, ih3, ih4⟩ := ih acc
          refine ⟨?_, ?_, ?_, ?_⟩
          · rw [hstep]; exact ih1
          · intro a ha
            rw [hstep] at ha
            exact ih2 a ha
          · intro nm hnm
            rw [hstep]
            exact ih3 nm (fun hh => hnm (List.mem_cons_of_mem _ hh))
          · intro nm hnm v hvv
            rcases List.mem_cons.mp hnm with rfl | hr
            · rw [hv] at hvv; cases hvv
            · rw [hstep]
              exact ih4 nm hr v hvv
      | some v =>
          have hstep : copyFieldsLoopAddr di (name :: rest) acc =
              copyFieldsLoopAddr di rest
                (setKey acc.1 name (deepcopyP v acc.2).1,
                  (deepcopyP v acc.2).2) := by
            simp [copyFieldsLoopAddr, hv]
          obtain ⟨ih1, ih2, ih3, ih4⟩ := ih
            (setKey acc.1 name (deepcopyP v acc.2).1, (deepcopyP v acc.2).2)
          refine ⟨?_, ?_, ?_, ?_⟩
          · rw [hstep]
            exact le_trans (deepcopyP_counter_le v acc.2) ih1
          · intro a ha
            rw [hstep] at ha
            rcases ih2 a ha with h | h
            · rcases addrs_setKey_sub acc.1 name _ h with h | h
              · exact Or.inr (addrs_deepcopyP_ge v acc.2 a h)
              · exact Or.inl h
            · exact Or.inr (le_trans (deepcopyP_counter_le v acc.2) h)
          · intro nm hnm
            have hr : nm ∉ rest := fun hh => hnm (List.mem_cons_of_mem _ hh)
            have hne : name ≠ nm :=
              fun hh => hnm (hh ▸ List.mem_cons_self _ _)
            rw [hstep, ih3 nm hr]
            exact alookup_setKey_ne acc.1 name nm _ hne
          · intro nm hnm w hw
            by_cases hr : nm ∈ rest
            · rw [hstep]
              exact ih4 nm hr w hw
            · have hname : nm = name := by
                rcases List.mem_cons.mp hnm with h | h
                · exact h
                · exact absurd h hr
              subst hname
              have hwv : v = w := by rw [hv] at hw; injection hw
              subst hwv
              rw [hstep, ih3 nm hr, alookup_setKey_self]
              simp [strip_deepcopyP v acc.2]

/-- **C2, counterexample.**  The claim states the merged result holds the
very objects stored in the type dictionary (resp. the course entry in
`_copy_fields`).  Store the object at address `0` (`PObj.node 0 []`) in the
type dictionary under `"x"` (resp. in the course entry under `"name"`) and
run with allocation counter `1`: the merged result holds a *fresh* object
(address `1`), not the stored object — `copy.deepcopy` copies nested
values, it does not share them. -/
theorem c2_counterexample :
    ¬ alookup (_type_dict_addr [("type", PObj.leaf "a")]
        [("a", [("x", PObj.node 0 [])])] 1) "x" = some (PObj.node 0 []) ∧
    ¬ alookup (_copy_fields_addr [("name", PObj.node 0 [])] ["name"] 1).1
        "name" = some (PObj.node 0 []) := by
  constructor
  · intro h
    have he : alookup (_type_dict_addr [("type", PObj.leaf "a")]
        [("a", [("x", PObj.node 0 [])])] 1) "x" = some (PObj.node 1 []) := rfl
    rw [he] at h
    simp at h
  · intro h
    have he : alookup (_copy_fields_addr [("name", PObj.node 0 [])] ["name"] 1).1
        "name" = some (PObj.node 1 []) := rfl
    rw [he] at h
    simp at h

/-- **C2** (amended).  The merge has deep-copy semantics on the type
dictionary and shares only `dict_item`'s own values: (1) every value of
`dict_item` (other than at `"type"`) appears in the merged result as the
very same object; (2) every object in the merged result either is an object
of `dict_item` or is freshly allocated (address at or above the allocation
counter) — so no object of the type dictionary, all of whose addresses
predate the counter, is ever shared into the result; (3) the values taken
from the type dictionary are nonetheless structural copies of the type's
values.  Likewise `_copy_fields` deep-copies the picked course-entry
fields: (4) every object in its result is freshly allocated — never an
object stored in the course entry, whose addresses predate the counter —
and (5) each present picked field is bound to a structural copy of the
stored value. -/
theorem c2_copy_semantics (di : PDict) (dt : List (String × PDict)) (c : Nat)
    (hnd : (keys di).Nodup) :
    (∀ k v, k ≠ "type" → alookup di k = some v →
        alookup (_type_dict_addr di dt c) k = some v) ∧
    (∀ a ∈ addrsOfList (_type_dict_addr di dt c),
        a ∈ addrsOfList di ∨ c ≤ a) ∧
    (∀ td, inheritsFromP di dt = some td →
      ∀ k, k ≠ "type" → hasKey di k = false →
        Option.map strip (alookup (_type_dict_addr di dt c) k) =
          Option.map strip (alookup td k)) ∧
    (∀ (item : PDict) (pf : List String) (cc : Nat),
      ∀ a ∈ addrsOfList (_copy_fields_addr item pf cc).1, cc ≤ a) ∧
    (∀ (item : PDict) (pf : List String) (cc : Nat),
      ∀ nm ∈ pf, ∀ v, alookup item nm = some v →
        Option.map strip (alookup (_copy_fields_addr item pf cc).1 nm) =
          some (strip v)) := by
  refine ⟨?_, ?_, ?_, ?_, ?_⟩
  · intro k v hk hv
    rw [_type_dict_addr, alookup_eraseKey_ne _ _ _ hk,
      alookup_dictUpdate di _ hnd k, if_pos (by simp [hasKey, hv])]
    exact hv
  · intro a ha
    have h1 := addrs_eraseKey_sub _ _ ha
    rcases addrs_dictUpdate_sub di _ h1 with h | h
    · rw [typeBaseAddr] at h
      cases hif : inheritsFromP di dt with
      | none => rw [hif] at h; simp [addrsOfList] at h
      | some td =>
          rw [hif] at h
          exact Or.inr (addrsL_deepcopyL_ge td c a h)
    · exact Or.inl h
  · intro td htd k hk hmiss
    rw [_type_dict_addr, alookup_eraseKey_ne _ _ _ hk,
      alookup_dictUpdate di _ hnd k, if_neg (by simp [hmiss]),
      typeBaseAddr, htd, ← alookup_stripL, stripL_deepcopyL, alookup_stripL]
  · intro item pf cc a ha
    rcases (copyFieldsLoopAddr_spec item pf ([], cc)).2.1 a ha with h | h
    · simp [addrsOfList] at h
    · exact h
  · intro item pf cc nm hnm v hv
    exact (copyFieldsLoopAddr_spec item pf ([], cc)).2.2.2 nm hnm v hv

/-- Closed instance of `c2_copy_semantics`: `dict_item`'s own `"title"`
object is shared into the result unchanged, the inherited `"x"` value is a
structural copy of the type dictionary's stored object, and `_copy_fields`
binds the picked `"name"` field to a structural copy of the stored
object. -/
theorem c2_copy_semantics_witness :
    alookup (_type_dict_addr [("title", PObj.leaf "t"), ("type", PObj.leaf "a")]
        [("a", [("x", PObj.node 0 [])])] 1) "title" = some (PObj.leaf "t") ∧
    Option.map strip
        (alookup (_type_dict_addr
          [("title", PObj.leaf "t"), ("type", PObj.leaf "a")]
          [("a", [("x", PObj.node 0 [])])] 1) "x") =
      Option.map strip (some (PObj.node 0 [])) ∧
    Option.map strip
        (alookup (_copy_fields_addr [("name", PObj.node 0 [])] ["name"] 1).1
          "name") =
      some (strip (PObj.node 0 [])) := by
  have h := c2_copy_semantics
    [("title", PObj.leaf "t"), ("type", PObj.leaf "a")]
    [("a", [("x", PObj.node 0 [])])] 1 (by simp [keys])
  refine ⟨h.1 "title" (PObj.leaf "t") (by simp) rfl, ?_, ?_⟩
  · exact h.2.2.1 [("x", PObj.node 0 [])] rfl "x" (by simp) rfl
  · exact h.2.2.2.2 [("name", PObj.node 0 [])] ["name"] 1 "name" (by simp)
      (PObj.node 0 []) rfl

/-! ### `test_result` (C5, C9) and the build hook (C7) -/

/-- **C5.**  Every POST to `test_result`, whatever its form content, writes
exactly one file, at the fixed path `SUBMISSION_PATH/test-result`: the
stored value is the serialised posted fields extended with a `"time"`
field, overwriting whatever was stored there; every other path is
untouched; and the response is the JSON body `{"success": true}`. -/
theorem c5_test_result (submission_path : String)
    (dumps : List (String × String) → String)
    (fs : String → Option String) (request : TRReq)
    (hpost : request.isPost = true) :
    (test_result submission_path dumps fs request).1
        (joinPath submission_path "test-result") =
      some (dumps (setKey request.postData "time" request.now)) ∧
    (∀ p, p ≠ joinPath submission_path "test-result" →
      (test_result submission_path dumps fs request).1 p = fs p) ∧
    (test_result submission_path dumps fs request).2 =
      Response.json [("success", JVal.bool true)] := by
  refine ⟨?_, ?_, ?_⟩
  · simp [test_result, hpost]
  · intro p hp
    simp [test_result, hpost, hp]
  · simp [test_result, hpost]

/-- Closed instance of `c5_test_result`: a concrete POST stores the
serialised fields at `/sub/test-result` and leaves `/other` alone. -/
theorem c5_test_result_witness :
    (test_result "/sub" (fun vals => if hasKey vals "time" then "J" else "")
      (fun _ => none) ⟨true, [("points", "10")], "T"⟩).1 "/sub/test-result" =
      some "J" ∧
    (test_result "/sub" (fun vals => if hasKey vals "time" then "J" else "")
      (fun _ => none) ⟨true, [("points", "10")], "T"⟩).1 "/other" = none := by
  have h := c5_test_result "/sub"
    (fun vals => if hasKey vals "time" then "J" else "")
    (fun _ => none) ⟨true, [("points", "10")], "T"⟩ rfl
  refine ⟨?_, h.2.1 "/other" (by decide)⟩
  have h2 := h.1
  rw [show joinPath "/sub" "test-result" = "/sub/test-result" from rfl] at h2
  rw [h2]
  rfl

/-- **C9.**  On a GET, `test_result` answers the stored file's content when
it exists and is non-empty, and the fallback text when the file does not
exist — or exists with empty content (`result or '...'` treats the empty
string as missing). -/
theorem c9_test_result_get (submission_path : String)
    (dumps : List (String × String) → String)
    (fs : String → Option String) (request : TRReq)
    (hget : request.isPost = false) :
    (∀ content, fs (joinPath submission_path "test-result") = some content →
      content ≠ "" →
      (test_result submission_path dumps fs request).2 =
        Response.raw content) ∧
    (fs (joinPath submission_path "test-result") = none →
      (test_result submission_path dumps fs request).2 =
        Response.raw "No test result received yet.") ∧
    (fs (joinPath submission_path "test-result") = some "" →
      (test_result submission_path dumps fs request).2 =
        Response.raw "No test result received yet.") := by
  refine ⟨?_, ?_, ?_⟩
  · intro content hc hne
    simp [test_result, hget, hc, hne]
  · intro hc
    simp [test_result, hget, hc]
  · intro hc
    simp [test_result, hget, hc]

/-- Closed instance of `c9_test_result_get`: an empty stored artifact is
answered with the fallback text, exactly like a missing one. -/
theorem c9_test_result_get_witness :
    (test_result "/sub" (fun _ => "") (fun p =>
      if p = "/sub/test-result" then some "" else none)
      ⟨false, [], "T"⟩).2 = Response.raw "No test result received yet." ∧
    (test_result "/sub" (fun _ => "") (fun _ => none)
      ⟨false, [], "T"⟩).2 = Response.raw "No test result received yet." := by
  constructor
  · exact (c9_test_result_get "/sub" (fun _ => "")
      (fun p => if p = "/sub/test-result" then some "" else none)
      ⟨false, [], "T"⟩ rfl).2.2 rfl
  · exact (c9_test_result_get "/sub" (fun _ => "")
      (fun _ => none) ⟨false, [], "T"⟩ rfl).2.1 rfl

/-- **C7.**  The build hook's signature, as declared by
`scripts/build_template.py`, is exactly the signature the specification
describes: logger, course key, course directory path, image name,
environment dictionary and `BUILD_MODULE_SETTINGS` value, to a boolean
build verdict. -/
theorem c7_build_signature : BuildHook = BuildHookSpec := rfl

/-! ### The views' error behaviour (C4) and the dynamic handler (C6) -/

/-- **C4.**  Whenever the configuration collaborator returns no entry for
the requested key(s) — `config.exercises` returns no course,
`config.exercise_entry` returns no course or no exercise, or
`config.course_entry` returns nothing — the `course`, `exercise` and
`aplus_json` views raise `Http404` (the framework's default error page)
and produce no normal response. -/
theorem c4_http404 (env : Env) (request : Req) :
    (∀ course_key, (env.exercises course_key).1 = none →
      course env request course_key = Except.error VErr.http404) ∧
    (∀ course_key exercise_key,
      ((env.exercise_entry (JVal.str course_key) (JVal.str exercise_key)
          request.lang).1 = none ∨
       (env.exercise_entry (JVal.str course_key) (JVal.str exercise_key)
          request.lang).2 = none) →
      exercise env request course_key exercise_key =
        Except.error VErr.http404) ∧
    (∀ course_key, env.course_entry course_key = none →
      aplus_json env request course_key = Except.error VErr.http404) := by
  refine ⟨?_, ?_, ?_⟩
  · intro course_key h
    cases he : env.exercises course_key with
    | mk c exs =>
        rw [he] at h
        simp at h
        subst h
        simp [course, he]
  · intro course_key exercise_key h
    cases he : env.exercise_entry (JVal.str course_key)
        (JVal.str exercise_key) request.lang with
    | mk c ex =>
        rw [he] at h
        rcases h with h | h <;> simp at h <;> subst h
        · simp [exercise, he]
        · cases c <;> simp [exercise, he]
  · intro course_key h
    simp [aplus_json, h]

/-- Closed instance of `c4_http404`: an environment whose configuration
knows nothing yields `Http404` from all three views. -/
theorem c4_http404_witness :
    (course ⟨fun _ => (none, []), fun _ => none, fun _ _ _ => (none, none),
        fun _ _ => "", fun _ => "", fun _ _ => "", fun _ => none⟩
      ⟨none, none, false, id⟩ "c" = Except.error VErr.http404) ∧
    (exercise ⟨fun _ => (none, []), fun _ => none, fun _ _ _ => (none, none),
        fun _ _ => "", fun _ => "", fun _ _ => "", fun _ => none⟩
      ⟨none, none, false, id⟩ "c" "e" = Except.error VErr.http404) ∧
    (aplus_json ⟨fun _ => (none, []), fun _ => none, fun _ _ _ => (none, none),
        fun _ _ => "", fun _ => "", fun _ _ => "", fun _ => none⟩
      ⟨none, none, false, id⟩ "c" = Except.error VErr.http404) := by
  have h := c4_http404
    ⟨fun _ => (none, []), fun _ => none, fun _ _ _ => (none, none),
      fun _ _ => "", fun _ => "", fun _ _ => "", fun _ => none⟩
    ⟨none, none, false, id⟩
  exact ⟨h.1 "c" rfl, h.2.1 "c" "e" (Or.inl rfl), h.2.2 "c" rfl⟩

/-- **C6.**  For a course/exercise pair whose configuration entry exists,
the `exercise` view resolves the handler named by the exercise entry's
`"view_type"` at request time and returns that handler applied to
`(request, course, exercise, post_url)`; when the path cannot be imported
(`ImproperlyConfigured`), it raises `ConfigError` instead of returning a
response. -/
theorem c6_exercise_view (env : Env) (request : Req)
    (course_key exercise_key : String) (c ex : JDict) (vt : JVal)
    (hentry : env.exercise_entry (JVal.str course_key) (JVal.str exercise_key)
      request.lang = (some c, some ex))
    (hvt : alookup ex "view_type" = some vt) :
    (∀ exview, env.import_by_path vt = some exview →
      exercise env request course_key exercise_key =
        Except.ok (exview request c ex request.post_url)) ∧
    (env.import_by_path vt = none →
      exercise env request course_key exercise_key =
        Except.error VErr.configError) := by
  constructor
  · intro exview himp
    simp [exercise, hentry, hvt, himp]
  · intro himp
    simp [exercise, hentry, hvt, himp]

/-- Closed instance of `c6_exercise_view`: a concrete environment resolving
`"access.types.stdsync.createForm"` to a handler serves that handler's
response. -/
theorem c6_exercise_view_witness :
    exercise
      ⟨fun _ => (none, []), fun _ => none,
        fun _ _ _ => (some [("key", JVal.str "c")],
          some [("view_type", JVal.str "access.types.stdsync.createForm")]),
        fun _ _ => "", fun _ => "", fun _ _ => "",
        fun _ => some (fun _ _ _ _ => Response.raw "form")⟩
      ⟨none, none, false, id⟩ "c" "e" = Except.ok (Response.raw "form") := by
  exact (c6_exercise_view
    ⟨fun _ => (none, []), fun _ => none,
      fun _ _ _ => (some [("key", JVal.str "c")],
        some [("view_type", JVal.str "access.types.stdsync.createForm")]),
      fun _ _ => "", fun _ => "", fun _ _ => "",
      fun _ => some (fun _ _ _ _ => Response.raw "form")⟩
    ⟨none, none, false, id⟩ "c" "e"
    [("key", JVal.str "c")]
    [("view_type", JVal.str "access.types.stdsync.createForm")]
    (JVal.str "access.types.stdsync.createForm") rfl rfl).1
    (fun _ _ _ _ => Response.raw "form") rfl

/-! ### The JSON export (C3) -/

/-- What a successful module loop yields: one output per module of the
course, in order — the module's `_type_dict` against the module types,
extended with the `"children"` list computed by `children_recursion`
against the exercise types. -/
theorem processModules_spec (env : Env) (request : Req) (c : JDict)
    (mt et : TDict) :
    ∀ (ms out : List JVal),
      processModules env request c mt et ms = Except.ok out →
      out.length = ms.length ∧
      ∀ i (hi : i < ms.length) (hi' : i < out.length),
        ∃ md kids, ms.get ⟨i, hi⟩ = JVal.dict md ∧
          children_recursion env request c et md = Except.ok kids ∧
          out.get ⟨i, hi'⟩ =
            JVal.dict (setKey (_type_dict md mt) "children"
              (JVal.list kids)) := by
  intro ms
  induction ms with
  | nil =>
      intro out h
      simp [processModules] at h
      subst h
      exact ⟨rfl, fun i hi => absurd hi (by simp)⟩
  | cons m rest ih =>
      intro out h
      cases m with
      | dict md =>
          cases hk : children_recursion env request c et md with
          | error e => simp [processModules, hk] at h
          | ok kids =>
              cases hm : processModules env request c mt et rest with
              | error e => simp [processModules, hk, hm] at h
              | ok tailOut =>
                  simp [processModules, hk, hm] at h
                  subst h
                  obtain ⟨hlen, hidx⟩ := ih tailOut hm
                  refine ⟨by simpa using hlen, ?_⟩
                  intro i hi hi'
                  match i with
                  | 0 => exact ⟨md, kids, rfl, hk, rfl⟩
                  | i + 1 =>
                      exact hidx i (by simpa using hi) (by simpa using hi')
      | null => simp [processModules] at h
      | bool b => simp [processModules] at h
      | num n => simp [processModules] at h
      | str s => simp [processModules] at h
      | list l => simp [processModules] at h

/-- **C3.**  For a course key whose course entry exists: when the entry has
no `"modules"` field, `aplus_json` answers JSON whose `"modules"` is the
empty list; and whenever it answers at all, it answers JSON whose
`"modules"` list has exactly one element per element of the entry's
`"modules"` list, in order, each obtained by `_type_dict` against the
course's module types carrying a `"children"` list built by
`children_recursion` over that module against the course's exercise
types. -/
theorem c3_aplus_json (env : Env) (request : Req) (course_key : String)
    (c : JDict) (hc : env.course_entry course_key = some c) :
    (alookup c "modules" = none →
      aplus_json env request course_key =
        Except.ok (Response.json
          (setKey (_copy_fields c aplusFields) "modules" (JVal.list [])))) ∧
    (∀ resp, aplus_json env request course_key = Except.ok resp →
      ∃ data, resp = Response.json data ∧
        ∀ ms, alookup c "modules" = some (JVal.list ms) →
          ∃ mt et out,
            asTypes (alookup c "module_types") = some mt ∧
            asTypes (alookup c "exercise_types") = some et ∧
            alookup data "modules" = some (JVal.list out) ∧
            out.length = ms.length ∧
            ∀ i (hi : i < ms.length) (hi' : i < out.length),
              ∃ md kids, ms.get ⟨i, hi⟩ = JVal.dict md ∧
                children_recursion env request c et md = Except.ok kids ∧
                out.get ⟨i, hi'⟩ =
                  JVal.dict (setKey (_type_dict md mt) "children"
                    (JVal.list kids))) := by
  constructor
  · intro hm
    simp [aplus_json, hc, hm]
  · intro resp h
    cases hm : alookup c "modules" with
    | none =>
        simp [aplus_json, hc, hm] at h
        refine ⟨setKey (_copy_fields c aplusFields) "modules" (JVal.list []),
          h.symm, ?_⟩
        intro ms hms
        cases hms
    | some mv =>
        cases mv with
        | list ms0 =>
            cases hmt : asTypes (alookup c "module_types") with
            | none => simp [aplus_json, hc, hm, hmt] at h
            | some mt =>
                cases het : asTypes (alookup c "exercise_types") with
                | none => simp [aplus_json, hc, hm, hmt, het] at h
                | some et =>
                    cases hp : processModules env request c mt et ms0 with
                    | error e => simp [aplus_json, hc, hm, hmt, het, hp] at h
                    | ok modules =>
                        simp [aplus_json, hc, hm, hmt, het, hp] at h
                        refine ⟨setKey (_copy_fields c aplusFields) "modules"
                          (JVal.list modules), h.symm, ?_⟩
                        intro ms hms
                        have hms' : ms0 = ms := by
                          injection hms with hms
                          injection hms with hms
                        subst hms'
                        obtain ⟨hlen, hidx⟩ :=
                          processModules_spec env request c mt et ms0
                            modules hp
                        exact ⟨mt, et, modules, rfl, rfl,
                          alookup_setKey_self _ _ _, hlen, hidx⟩
        | null => simp [aplus_json, hc, hm] at h
        | bool b => simp [aplus_json, hc, hm] at h
        | num n => simp [aplus_json, hc, hm] at h
        | str s => simp [aplus_json, hc, hm] at h
        | dict d => simp [aplus_json, hc, hm] at h

/-- Closed instance of `c3_aplus_json`: a course entry without a
`"modules"` field is exported with its copied fields and an empty
`"modules"` list. -/
theorem c3_aplus_json_witness :
    aplus_json
      ⟨fun _ => (none, []), fun k => if k = "c"
          then some [("name", JVal.str "N"), ("key", JVal.str "c")] else none,
        fun _ _ _ => (none, none), fun _ _ => "", fun _ => "",
        fun _ _ => "", fun _ => none⟩
      ⟨none, none, false, id⟩ "c" =
      Except.ok (Response.json
        [("name", JVal.str "N"), ("modules", JVal.list [])]) := by
  have h := (c3_aplus_json
    ⟨fun _ => (none, []), fun k => if k = "c"
        then some [("name", JVal.str "N"), ("key", JVal.str "c")] else none,
      fun _ _ _ => (none, none), fun _ _ => "", fun _ => "",
      fun _ _ => "", fun _ => none⟩
    ⟨none, none, false, id⟩ "c"
    [("name", JVal.str "N"), ("key", JVal.str "c")] rfl).1 rfl
  rw [h]
  rfl

/-! ### No `"type"` key is ever emitted (C8) -/

theorem keys_setKey_nodup {α : Type} (d : List (String × α)) (k : String)
    (v : α) (hnd : (keys d).Nodup) : (keys (setKey d k v)).Nodup := by
  induction d with
  | nil => simp [setKey, keys]
  | cons kv rest ih =>
      obtain ⟨k0, w⟩ := kv
      rw [keys_cons] at hnd
      obtain ⟨h0, hnd'⟩ := List.nodup_cons.mp hnd
      by_cases hk : k0 = k
      · subst hk
        rw [show setKey ((k0, w) :: rest) k0 v = (k0, v) :: rest by
          simp [setKey]]
        rw [keys_cons]
        exact List.nodup_cons.mpr ⟨h0, hnd'⟩
      · rw [show setKey ((k0, w) :: rest) k v = (k0, w) :: setKey rest k v by
          simp [setKey, hk]]
        rw [keys_cons]
        refine List.nodup_cons.mpr ⟨?_, ih hnd'⟩
        intro hmem
        rcases (mem_keys_setKey rest k k0 v).mp hmem with h | h
        · exact hk h
        · exact h0 h

theorem keys_dictUpdate_nodup {α : Type} (d : List (String × α)) :
    ∀ base : List (String × α), (keys base).Nodup →
      (keys (dictUpdate base d)).Nodup := by
  induction d with
  | nil => intro base h; simpa [dictUpdate] using h
  | cons kv rest ih =>
      intro base h
      rw [show dictUpdate base (kv :: rest) =
          dictUpdate (setKey base kv.1 kv.2) rest by simp [dictUpdate]]
      exact ih _ (keys_setKey_nodup base kv.1 kv.2 h)

theorem alookup_type_dict_type_none (di : JDict) (dt : TDict) :
    alookup (_type_dict di dt) "type" = none := by
  simp [_type_dict, alookup_eraseKey_self]

/-- A key `dict_item` itself provides (other than `"type"`) survives
`_type_dict` with `dict_item`'s value. -/
theorem alookup_type_dict_of_hasKey (di : JDict) (dt : TDict)
    (hnd : (keys di).Nodup) (k : String) (hk : k ≠ "type")
    (hhas : hasKey di k = true) :
    alookup (_type_dict di dt) k = alookup di k := by
  simp only [_type_dict]
  rw [alookup_eraseKey_ne _ _ _ hk, alookup_dictUpdate di _ hnd k, if_pos hhas]

/-- Each `of` base the children loop builds has duplicate-free keys. -/
theorem buildOf_keys_nodup {env : Env} {request : Req} {c o : JDict}
    {of0 : JDict} (h : buildOf env request c o = Except.ok of0) :
    (keys of0).Nodup := by
  unfold buildOf at h
  repeat' split at h
  all_goals cases h
  all_goals simp [keys]

theorem list_sizeOf_pos {α : Type} [SizeOf α] (l : List α) : 0 < sizeOf l := by
  cases l with
  | nil => simp
  | cons a t => simp only [List.cons.sizeOf_spec]; omega

/-- Every entry a successful children recursion emits satisfies the deep
`"type"`-freeness invariant (proved by strong induction on the size of the
traversed configuration value). -/
theorem children_noType (env : Env) (request : Req) (c : JDict) (et : TDict) :
    ∀ n : Nat,
      (∀ parent : JDict, sizeOf parent ≤ n →
        ∀ out, children_recursion env request c et parent = Except.ok out →
          ∀ v ∈ out, NoTypeDeeply v) ∧
      (∀ cs : List JVal, sizeOf cs ≤ n →
        ∀ out, childrenList env request c et cs = Except.ok out →
          ∀ v ∈ out, NoTypeDeeply v) := by
  intro n
  induction n with
  | zero =>
      constructor
      · intro parent hp
        exact absurd (lt_of_lt_of_le (list_sizeOf_pos parent) hp) (by simp)
      · intro cs hcs
        exact absurd (lt_of_lt_of_le (list_sizeOf_pos cs) hcs) (by simp)
  | succ n ih =>
      constructor
      · intro parent hp out h v hv
        rw [children_recursion] at h
        split at h
        · injection h with h
          subst h
          cases hv
        · rename_i heq
          have hsz : sizeOf _ < sizeOf parent := sizeOf_alookup heq
          simp only [JVal.list.sizeOf_spec] at hsz
          refine ih.2 _ (by omega) out h v hv
        · cases h
      · intro cs hcs out h v hv
        cases cs with
        | nil =>
            simp [childrenList] at h
            subst h
            cases hv
        | cons o rest =>
            have hszr : sizeOf rest < sizeOf (o :: rest) := by
              simp only [List.cons.sizeOf_spec]; omega
            cases o with
            | dict od =>
                have hszo : sizeOf od + 1 < sizeOf (JVal.dict od :: rest) := by
                  simp only [List.cons.sizeOf_spec, JVal.dict.sizeOf_spec]
                  omega
                rw [childrenList] at h
                by_cases hkey : hasKey od "key" = true
                · rw [if_pos hkey] at h
                  split at h
                  · cases h
                  · rename_i of0 hbo
                    split at h
                    · cases h
                    · rename_i kids hck
                      split at h
                      · cases h
                      · rename_i result hcr
                        injection h with h
                        subst h
                        rcases List.mem_cons.mp hv with rfl | hvr
                        · refine NoTypeDeeply.dict _
                            (alookup_type_dict_type_none _ _) ?_
                          intro kids' hkids' w hw
                          have hfo_nodup : (keys (setKey (dictUpdate of0 od)
                              "children" (JVal.list kids))).Nodup :=
                            keys_setKey_nodup _ _ _
                              (keys_dictUpdate_nodup od of0
                                (buildOf_keys_nodup hbo))
                          have hchildren : alookup (setKey (dictUpdate of0 od)
                              "children" (JVal.list kids)) "children" =
                              some (JVal.list kids) :=
                            alookup_setKey_self _ _ _
                          rw [alookup_type_dict_of_hasKey _ et hfo_nodup
                              "children" (by decide)
                              (by simp [hasKey, hchildren]),
                            hchildren] at hkids'
                          have hkk : kids = kids' := by
                            injection hkids' with hkids'
                            injection hkids' with hkids'
                          subst hkk
                          exact ih.1 od (by omega) kids hck w hw
                        · exact ih.2 rest (by omega) result hcr v hvr
                · rw [if_neg hkey] at h
                  exact ih.2 rest (by omega) out h v hv
            | null => simp [childrenList] at h
            | bool b => simp [childrenList] at h
            | num m => simp [childrenList] at h
            | str s => simp [childrenList] at h
            | list l => simp [childrenList] at h

/-- Every module entry a successful module loop emits satisfies the deep
`"type"`-freeness invariant. -/
theorem processModules_noType (env : Env) (request : Req) (c : JDict)
    (mt et : TDict) :
    ∀ ms out, processModules env request c mt et ms = Except.ok out →
      ∀ v ∈ out, NoTypeDeeply v := by
  intro ms
  induction ms with
  | nil =>
      intro out h v hv
      simp [processModules] at h
      subst h
      cases hv
  | cons m rest ih =>
      intro out h v hv
      cases m with
      | dict md =>
          cases hk : children_recursion env request c et md with
          | error e => simp [processModules, hk] at h
          | ok kids =>
              cases hm : processModules env request c mt et rest with
              | error e => simp [processModules, hk, hm] at h
              | ok tailOut =>
                  simp [processModules, hk, hm] at h
                  subst h
                  rcases List.mem_cons.mp hv with rfl | hvr
                  · refine NoTypeDeeply.dict _ ?_ ?_
                    · rw [alookup_setKey_ne _ _ _ _ (by decide)]
                      exact alookup_type_dict_type_none _ _
                    · intro kids' hkids' w hw
                      rw [alookup_setKey_self] at hkids'
                      have hkk : kids = kids' := by
                        injection hkids' with hkids'
                        injection hkids' with hkids'
                      subst hkk
                      exact (children_noType env request c et (sizeOf md)).1
                        md (le_refl _) kids hk w hw
                  · exact ih tailOut hm v hvr
      | null => simp [processModules] at h
      | bool b => simp [processModules] at h
      | num n => simp [processModules] at h
      | str s => simp [processModules] at h
      | list l => simp [processModules] at h

/-- **C8.**  `_type_dict` never emits a `"type"` key — also when the item's
type names no entry of `dict_types`, and also when the inherited type
dictionary itself contains `"type"` — and consequently no entry of the JSON
feed's `"modules"` list, nor any entry of a `"children"` list at any depth
below it, carries a `"type"` field. -/
theorem c8_no_type_emitted :
    (∀ (di : JDict) (dt : TDict), ∀ p ∈ _type_dict di dt, p.1 ≠ "type") ∧
    (∀ (env : Env) (request : Req) (course_key : String) (data : JDict),
      aplus_json env request course_key = Except.ok (Response.json data) →
      ∀ out, alookup data "modules" = some (JVal.list out) →
        ∀ v ∈ out, NoTypeDeeply v) := by
  constructor
  · exact fun di dt => type_dict_no_type di dt
  · intro env request course_key data h out hout v hv
    cases hc : env.course_entry course_key with
    | none => simp [aplus_json, hc] at h
    | some c =>
        cases hm : alookup c "modules" with
        | none =>
            simp [aplus_json, hc, hm] at h
            subst h
            rw [alookup_setKey_self] at hout
            have : JVal.list [] = JVal.list out := by injection hout
            have : ([] : List JVal) = out := by injection this
            subst this
            cases hv
        | some mv =>
            cases mv with
            | list ms =>
                cases hmt : asTypes (alookup c "module_types") with
                | none => simp [aplus_json, hc, hm, hmt] at h
                | some mt =>
                    cases het : asTypes (alookup c "exercise_types") with
                    | none => simp [aplus_json, hc, hm, hmt, het] at h
                    | some et =>
                        cases hp : processModules env request c mt et ms with
                        | error e =>
                            simp [aplus_json, hc, hm, hmt, het, hp] at h
                        | ok modules =>
                            simp [aplus_json, hc, hm, hmt, het, hp] at h
                            subst h
                            rw [alookup_setKey_self] at hout
                            have h1 : JVal.list modules = JVal.list out := by
                              injection hout
                            have h2 : modules = out := by injection h1
                            subst h2
                            exact processModules_noType env request c mt et
                              ms modules hp v hv
            | null => simp [aplus_json, hc, hm] at h
            | bool b => simp [aplus_json, hc, hm] at h
            | num n => simp [aplus_json, hc, hm] at h
            | str s => simp [aplus_json, hc, hm] at h
            | dict d => simp [aplus_json, hc, hm] at h

/-- Closed instance of `c8_no_type_emitted`: a concrete `_type_dict` entry,
and the module entry emitted for a concrete one-module course. -/
theorem c8_no_type_emitted_witness :
    (("k", JVal.num 1) : String × JVal).1 ≠ "type" ∧
    NoTypeDeeply (JVal.dict [("children", JVal.list [])]) := by
  constructor
  · refine c8_no_type_emitted.1 [("k", JVal.num 1)] [] ("k", JVal.num 1) ?_
    rw [show _type_dict [("k", JVal.num 1)] [] = [("k", JVal.num 1)] from rfl]
    exact List.mem_singleton.mpr rfl
  · have hcr : children_recursion
        ⟨fun _ => (none, []), fun k => if k = "c"
            then some [("modules", JVal.list [JVal.dict []])] else none,
          fun _ _ _ => (none, none), fun _ _ => "", fun _ => "",
          fun _ _ => "", fun _ => none⟩
        ⟨none, none, false, id⟩ [("modules", JVal.list [JVal.dict []])] []
        [] = Except.ok [] := by
      rw [children_recursion]
      rfl
    have hrun : aplus_json
        ⟨fun _ => (none, []), fun k => if k = "c"
            then some [("modules", JVal.list [JVal.dict []])] else none,
          fun _ _ _ => (none, none), fun _ _ => "", fun _ => "",
          fun _ _ => "", fun _ => none⟩
        ⟨none, none, false, id⟩ "c" =
        Except.ok (Response.json
          [("modules", JVal.list [JVal.dict [("children", JVal.list [])]])]) := by
      simp [aplus_json, processModules, hcr, aplusFields, _copy_fields,
        copyFieldsLoop, asTypes, alookup, _type_dict, typeBase, inheritsFrom,
        dictUpdate, eraseKey, setKey]
    refine c8_no_type_emitted.2
      ⟨fun _ => (none, []), fun k => if k = "c"
          then some [("modules", JVal.list [JVal.dict []])] else none,
        fun _ _ _ => (none, none), fun _ _ => "", fun _ => "",
        fun _ _ => "", fun _ => none⟩
      ⟨none, none, false, id⟩ "c"
      [("modules", JVal.list [JVal.dict [("children", JVal.list [])]])]
      hrun [JVal.dict [("children", JVal.list [])]] rfl
      (JVal.dict [("children", JVal.list [])]) (List.mem_singleton.mpr rfl)

end GitManager
